import Mathlib

/-!
Verification development for the podcast-whisper repository.

The repository has two pipelines:
* `src/rss_parser.py` — feed parsing, episode selection and audio download
  (`PodcastDownloader.parse_feed`, `download_file`, `download_specific_episodes`);
* `src/transcriber.py` — ASR post-processing: the repeated-segment suppression
  filter and output writing (`PodcastTranscriber.transcribe_file`).

Shallow-embedding conventions used throughout:
* Python strings are `List Char` (`PyStr`) on the downloader side, where
  character-level manipulation matters, and Lean `String` for segment texts,
  where only equality and concatenation matter.
* Python's `str.strip()` is `pyStrip` over the explicit ASCII whitespace set;
  the regex classes `\s` and `\d` are modelled by `isSpaceChar` / `Char.isDigit`
  (ASCII approximations of Python's unicode classes).
* The filesystem is an association list from path to content (`FSys`);
  `requests.get` is an oracle `net : PyStr → NetOutcome`; the speech-to-text
  model is an oracle `asr : PyStr → List RawSegment`; OpenCC script conversion
  is an oracle `cc : String → String`.
* Segment timestamps (Python floats, used only for `[MM:SS -> MM:SS]`
  formatting) are modelled as already-truncated natural numbers of seconds.
-/


/-- Python whitespace for `str.strip()` (ASCII part of Python's definition). -/
def isSpaceChar (c : Char) : Bool :=
  c = ' ' ∨ c = '\t' ∨ c = '\n' ∨ c = '\r' ∨ c = '\x0b' ∨ c = '\x0c'

/-- Python string, modelled as its sequence of code points. -/
abbrev PyStr := List Char

/-- Python `str.strip()` on a character list: drop whitespace at both ends. -/
def pyStrip (s : List Char) : List Char :=
  ((s.dropWhile isSpaceChar).reverse.dropWhile isSpaceChar).reverse

/-- Python `str.strip()` on a Lean `String` (used for `segment.text.strip()`). -/
def stripS (s : String) : String :=
  (pyStrip s.data).asString

/-- One raw ASR segment as yielded by `model.transcribe` (transcriber.py line 101):
text plus start/end times in whole seconds. -/
structure RawSegment where
  text : String
  start : Nat
  stop : Nat
deriving DecidableEq, Repr

/-- One record of `transcript_data` (transcriber.py lines 127-132):
`{"id": i, "start": segment.start, "end": segment.end, "text": text}`. -/
structure TranscriptEntry where
  id : Nat
  start : Nat
  stop : Nat
  text : String
deriving DecidableEq, Repr

/-- transcriber.py line 97: `MAX_REPEATS = 1`. -/
def MAX_REPEATS : Nat := 1

/-- Zero-padded two-digit rendering, Python `f"{n:02d}"` for `n : Nat`. -/
def pad2 (n : Nat) : String :=
  if n < 10 then "0" ++ toString n else toString n

/-- transcriber.py lines 120-122: `[MM:SS -> MM:SS]` from `divmod(int(t), 60)`. -/
def timeStr (a b : Nat) : String :=
  "[" ++ pad2 (a / 60) ++ ":" ++ pad2 (a % 60) ++ " -> " ++
    pad2 (b / 60) ++ ":" ++ pad2 (b % 60) ++ "]"

/-- transcriber.py line 124: `line = f"{time_str} {text}"`. -/
def fmtLine (a b : Nat) (t : String) : String :=
  timeStr a b ++ " " ++ t

/-- transcriber.py lines 108-111: the updated `repeat_count` for an incoming
converted text given the previous `last_text` and count. -/
def newRepeatCount (t lastText : String) (repeatCount : Nat) : Nat :=
  if t = lastText then repeatCount + 1 else 0

/-- transcriber.py lines 101-137: the `for i, segment in enumerate(segments, 1)`
loop of `transcribe_file`.  State: next index `i`, `last_text`, `repeat_count`.
Produces the kept `full_text_lines` (segment lines only; the three header lines
are prepended by `transcribe_file`) and the kept `transcript_data` records.
`cc` is `self.cc.convert` (OpenCC `s2twp`), applied after `.strip()`. -/
def processLoop (cc : String → String) :
    Nat → String → Nat → List RawSegment → List String × List TranscriptEntry
  | _, _, _, [] => ([], [])
  | i, lastText, rc, seg :: rest =>
    if newRepeatCount (cc (stripS seg.text)) lastText rc > MAX_REPEATS then
      processLoop cc (i+1) (cc (stripS seg.text))
        (newRepeatCount (cc (stripS seg.text)) lastText rc) rest
    else
      (fmtLine seg.start seg.stop (cc (stripS seg.text)) ::
        (processLoop cc (i+1) (cc (stripS seg.text))
          (newRepeatCount (cc (stripS seg.text)) lastText rc) rest).1,
       (⟨i, seg.start, seg.stop, cc (stripS seg.text)⟩ : TranscriptEntry) ::
        (processLoop cc (i+1) (cc (stripS seg.text))
          (newRepeatCount (cc (stripS seg.text)) lastText rc) rest).2)

/-- The suppression filter of `transcribe_file`, started with `i = 1`,
`last_text = ""`, `repeat_count = 0` (transcriber.py lines 95-101). -/
def processSegments (cc : String → String) (segs : List RawSegment) :
    List String × List TranscriptEntry :=
  processLoop cc 1 "" 0 segs

/-- The converted texts of a segment stream, in order:
`self.cc.convert(segment.text.strip())` for each segment. -/
def convTexts (cc : String → String) (segs : List RawSegment) : List String :=
  segs.map (fun s => cc (stripS s.text))

/-- The 1-based ids of the segments kept by the suppression filter. -/
def keptIds (cc : String → String) (segs : List RawSegment) : List Nat :=
  (processSegments cc segs).2.map TranscriptEntry.id

/-- Spec-side keep/drop flags for the suppression rule stated by the spec:
within every maximal run of consecutive identical texts, exactly the first two
occurrences are kept.  `prev` is the text of the previous segment (`none`
before the first segment) and `runLen` the length of the current run so far. -/
def runFlags : Option String → Nat → List String → List Bool
  | _, _, [] => []
  | prev, runLen, t :: rest =>
    if some t = prev then
      decide (runLen + 1 ≤ 2) :: runFlags (some t) (runLen + 1) rest
    else
      true :: runFlags (some t) 1 rest

/-- 1-based positions of the `true` entries of a flag list, starting at `i`. -/
def trueIdxs (i : Nat) : List Bool → List Nat
  | [] => []
  | b :: rest => if b then i :: trueIdxs (i+1) rest else trueIdxs (i+1) rest

/-- All entries that the loop would produce if nothing were dropped: the entry
for the segment at (1-based) position `k` carries id `k` and that segment's
times and converted text. -/
def entriesFrom (cc : String → String) : Nat → List RawSegment → List TranscriptEntry
  | _, [] => []
  | i, seg :: rest =>
    (⟨i, seg.start, seg.stop, cc (stripS seg.text)⟩ : TranscriptEntry) ::
      entriesFrom cc (i+1) rest

/-- An abstract filesystem: an association list from path to file content.
`os.path.exists`, writing and `os.remove` are the only operations the code
performs on it. -/
def FSys (α : Type) : Type := List (PyStr × α)

/-- Model of `os.path.exists`. -/
def fsExists {α : Type} (p : PyStr) (fs : FSys α) : Bool :=
  fs.any (fun e => decide (e.1 = p))

/-- Model of `os.remove`: drop every entry at the path. -/
def fsRemove {α : Type} (p : PyStr) (fs : FSys α) : FSys α :=
  fs.filter (fun e => !(decide (e.1 = p)))

/-- Model of opening a path for writing and writing content to it. -/
def fsWrite {α : Type} (p : PyStr) (a : α) (fs : FSys α) : FSys α :=
  (p, a) :: fsRemove p fs

/-- Outcome of `requests.get(url, stream=True)` followed by the chunked body
transfer: success with the full body, or an exception — raised either before
the output file is opened (`fail none`: connection error or
`raise_for_status`) or partway through the body (`fail (some part)`, with
`part` the bytes already written to the output file). -/
inductive NetOutcome : Type where
  | ok (content : List Nat)
  | fail (part : Option (List Nat))
deriving DecidableEq, Repr

/-- rss_parser.py: characters removed from filenames by
`re.sub(r'[\\/*?:"<>|]', '', filename)` (line 104). -/
def illegalChars : List Char := ['\\', '/', '*', '?', ':', '\"', '<', '>', '|']

/-- rss_parser.py line 104: `re.sub(r'[\\/*?:"<>|]', '', filename).strip()`. -/
def sanitizeName (filename : PyStr) : PyStr :=
  pyStrip (filename.filter (fun c => decide (c ∉ illegalChars)))

/-- rss_parser.py line 105: `os.path.join(self.save_dir, safe_filename)`. -/
def targetPath (saveDir filename : PyStr) : PyStr :=
  saveDir ++ '/' :: sanitizeName filename

/-- rss_parser.py lines 101-132: `PodcastDownloader.download_file`.
Returns the filesystem after the call, the returned value
(`file_path` or `None`), and the number of network transfers started. -/
def download_file (net : PyStr → NetOutcome) (saveDir : PyStr)
    (fs : FSys (List Nat)) (url filename : PyStr) :
    FSys (List Nat) × Option PyStr × Nat :=
  if fsExists (targetPath saveDir filename) fs then
    (fs, some (targetPath saveDir filename), 0)
  else
    match net url with
    | NetOutcome.ok content =>
        (fsWrite (targetPath saveDir filename) content fs,
         some (targetPath saveDir filename), 1)
    | NetOutcome.fail none => (fs, none, 1)
    | NetOutcome.fail (some part) =>
        let fs1 := fsWrite (targetPath saveDir filename) part fs
        (if fsExists (targetPath saveDir filename) fs1 then
           fsRemove (targetPath saveDir filename) fs1
         else fs1,
         none, 1)

/-- Bool test for `pat in s` (Python substring membership). -/
def containsSub (s pat : PyStr) : Bool :=
  s.tails.any (fun t => pat.isPrefixOf t)

/-- rss_parser.py lines 148-149: `ext = ".mp3"; if "m4a" in ep['url']: ext = ".m4a"`. -/
def extFor (url : PyStr) : PyStr :=
  if containsSub url ('m' :: '4' :: 'a' :: []) then
    '.' :: 'm' :: '4' :: 'a' :: []
  else
    '.' :: 'm' :: 'p' :: '3' :: []

/-- The filename an episode resolves to before the save-dir is prepended:
`ep['title'][:40] + ext` (rss_parser.py lines 148-152) composed with the
sanitization performed inside `download_file` (line 104). -/
def resolveFilename (title url : PyStr) : PyStr :=
  sanitizeName (title.take 40 ++ extFor url)

/-- One parsed episode record (rss_parser.py lines 91-96). -/
structure Episode : Type where
  title : PyStr
  ep_number : Option Nat
  date : PyStr
  url : PyStr
deriving DecidableEq, Repr

/-- The selection skeleton of `download_specific_episodes` (rss_parser.py
lines 144-155) without the filesystem effects: the list of episodes for which
`download_file` is called, in feed order, and the final remaining target set
(`targets_set` after the loop, printed as not-found on line 158). -/
def selectLoop : Finset Nat → List Episode → List Episode × Finset Nat
  | targets, [] => ([], targets)
  | targets, ep :: rest =>
    match ep.ep_number with
    | none => selectLoop targets rest
    | some n =>
      if n ∈ targets then
        ((ep :: (selectLoop (targets.erase n) rest).1),
         (selectLoop (targets.erase n) rest).2)
      else selectLoop targets rest

/-- rss_parser.py lines 144-155: the download loop of
`download_specific_episodes`, threading the filesystem.  Returns the final
filesystem, the list of `(episode, download_file result)` pairs in the order
the downloads were attempted, and the remaining target set. -/
def downloadLoop (net : PyStr → NetOutcome) (saveDir : PyStr) :
    Finset Nat → FSys (List Nat) → List Episode →
      FSys (List Nat) × List (Episode × Option PyStr) × Finset Nat
  | targets, fs, [] => (fs, [], targets)
  | targets, fs, ep :: rest =>
    match ep.ep_number with
    | none => downloadLoop net saveDir targets fs rest
    | some n =>
      if n ∈ targets then
        ((downloadLoop net saveDir (targets.erase n)
            (download_file net saveDir fs ep.url (ep.title.take 40 ++ extFor ep.url)).1 rest).1,
         (ep, (download_file net saveDir fs ep.url (ep.title.take 40 ++ extFor ep.url)).2.1) ::
           (downloadLoop net saveDir (targets.erase n)
             (download_file net saveDir fs ep.url (ep.title.take 40 ++ extFor ep.url)).1 rest).2.1,
         (downloadLoop net saveDir (targets.erase n)
           (download_file net saveDir fs ep.url (ep.title.take 40 ++ extFor ep.url)).1 rest).2.2)
      else downloadLoop net saveDir targets fs rest

/-- rss_parser.py lines 134-158: `download_specific_episodes(target_numbers)`,
with `targets_set = set(target_numbers)` (line 142). -/
def download_specific_episodes (net : PyStr → NetOutcome) (saveDir : PyStr)
    (fs : FSys (List Nat)) (target_numbers : List Nat) (eps : List Episode) :
    FSys (List Nat) × List (Episode × Option PyStr) × Finset Nat :=
  downloadLoop net saveDir target_numbers.toFinset fs eps

/-- Spec-side restatement of the first-match-wins design choice: an episode is
selected iff its number is a target and no earlier episode in feed order bears
the same extracted number.  `seen` accumulates the numbers of all episodes
passed so far. -/
def selFirstAux (targets : Finset Nat) : Finset Nat → List Episode → List Episode
  | _, [] => []
  | seen, ep :: rest =>
    match ep.ep_number with
    | none => selFirstAux targets seen rest
    | some n =>
      if n ∈ targets ∧ n ∉ seen then
        ep :: selFirstAux targets (insert n seen) rest
      else selFirstAux targets (insert n seen) rest

/-- Integer value of a digit string, Python `int(digits)`. -/
def digitsToNat (ds : List Char) : Nat :=
  ds.foldl (fun acc c => acc * 10 + (c.toNat - '0'.toNat)) 0

/-- Regex `\.?`: consume one leading literal dot if present. -/
def dropDot : List Char → List Char
  | [] => []
  | c :: r => if c = '.' then r else c :: r

/-- Regex `\s*(\d+)` after the marker: skip whitespace greedily, then take the
maximal digit run. -/
def digitsAfter (r : List Char) : List Char :=
  (r.dropWhile isSpaceChar).takeWhile Char.isDigit

/-- Attempt to match `(?i)EP\.?\s*(\d+)` anchored at the start of `l`
(rss_parser.py line 88).  Returns `int(group(1))` on success. -/
def matchEPAt : List Char → Option Nat
  | c1 :: c2 :: rest =>
    if (c1 = 'E' ∨ c1 = 'e') ∧ (c2 = 'P' ∨ c2 = 'p') then
      if digitsAfter (dropDot rest) = [] then none
      else some (digitsToNat (digitsAfter (dropDot rest)))
    else none
  | _ => none

/-- `re.search`: try every position left to right, returning the leftmost
match. -/
def searchEP : List Char → Option Nat
  | [] => none
  | c :: rest =>
    match matchEPAt (c :: rest) with
    | some n => some n
    | none => searchEP rest

/-- rss_parser.py lines 88-89:
`ep_match = re.search(r"(?i)EP\.?\s*(\d+)", title)` and
`ep_number = int(ep_match.group(1)) if ep_match else None`. -/
def extract_ep_number (title : PyStr) : Option Nat :=
  searchEP title

/-- Spec-side description of an `EP` marker match anchored at the start of a
string: `E`/`e` then `P`/`p`, an optional period, optional whitespace, then a
non-empty maximal digit run whose integer value is `n`. -/
def HeadMatch (l : List Char) (n : Nat) : Prop :=
  ∃ c1 c2 dot sp ds post,
    l = c1 :: c2 :: (dot ++ (sp ++ (ds ++ post)))
    ∧ (c1 = 'E' ∨ c1 = 'e') ∧ (c2 = 'P' ∨ c2 = 'p')
    ∧ (dot = [] ∨ dot = ['.'])
    ∧ (∀ c ∈ sp, isSpaceChar c = true)
    ∧ ds ≠ [] ∧ (∀ c ∈ ds, c.isDigit = true)
    ∧ (∀ c, post.head? = some c → c.isDigit = false)
    ∧ n = digitsToNat ds

/-- Spec-side description of a title containing an `EP<digits>` pattern with
value `n` at some position. -/
def EPDecomp (title : PyStr) (n : Nat) : Prop :=
  ∃ pre suf, title = pre ++ suf ∧ HeadMatch suf n

/-- Content of a file in the transcription pipeline's filesystem: an audio
file, a text transcript, or a structured (JSON) segment list. -/
inductive TFile : Type where
  | audioF
  | txtF (content : String)
  | jsonF (data : List TranscriptEntry)
deriving DecidableEq

/-- Model of `os.path.join(a, b)` for a relative second component. -/
def joinPath (d f : PyStr) : PyStr :=
  d ++ '/' :: f

/-- Model of `os.path.basename`: the part after the last `/`. -/
def baseName (p : PyStr) : PyStr :=
  (p.reverse.takeWhile (fun c => !(decide (c = '/')))).reverse

/-- Model of `os.path.splitext(...)[0]`: cut at the last dot, ignoring leading
dots of the basename. -/
def splitExtStem (b : PyStr) : PyStr :=
  if (b.dropWhile (fun c => decide (c = '.'))).any (fun c => decide (c = '.')) then
    ((b.reverse.dropWhile (fun c => !(decide (c = '.')))).drop 1).reverse
  else b

/-- transcriber.py line 64: `txt_path = os.path.join(output_dir, f"{base_name}.txt")`. -/
def txtPath (output_dir audio_path : PyStr) : PyStr :=
  joinPath output_dir (splitExtStem (baseName audio_path) ++ ".txt".data)

/-- transcriber.py line 65: `json_path = os.path.join(output_dir, f"{base_name}.json")`. -/
def jsonPath (output_dir audio_path : PyStr) : PyStr :=
  joinPath output_dir (splitExtStem (baseName audio_path) ++ ".json".data)

/-- transcriber.py lines 90-92 and 139-140: the text artifact's content — the
two header lines (source filename, model/timestamp), a separator line of 50
dashes plus a newline, then the kept segment lines, joined by newlines.
`nowStr` stands in for `time.strftime('%Y-%m-%d %H:%M:%S')`. -/
def txtContent (file_name : PyStr) (nowStr : String) (lines : List String) : String :=
  String.intercalate "\n"
    (("來源: " ++ file_name.asString)
      :: ("模型: large-v3 | 時間: " ++ nowStr)
      :: (String.mk (List.replicate 50 '-') ++ "\n")
      :: lines)

/-- transcriber.py lines 53-151: `PodcastTranscriber.transcribe_file`.
Returns the filesystem after the call, the returned path (or `None` when the
audio file is missing), and the number of ASR invocations performed.
`asr` is the `model.transcribe` collaborator. -/
def transcribe_file (asr : PyStr → List RawSegment) (cc : String → String)
    (nowStr : String) (fs : FSys TFile) (audio_path output_dir : PyStr) :
    FSys TFile × Option PyStr × Nat :=
  if fsExists audio_path fs = false then (fs, none, 0)
  else if fsExists (txtPath output_dir audio_path) fs
      && fsExists (jsonPath output_dir audio_path) fs then
    (fs, some (txtPath output_dir audio_path), 0)
  else
    (fsWrite (jsonPath output_dir audio_path)
       (TFile.jsonF (processSegments cc (asr audio_path)).2)
       (fsWrite (txtPath output_dir audio_path)
         (TFile.txtF (txtContent (baseName audio_path) nowStr
            (processSegments cc (asr audio_path)).1)) fs),
     some (txtPath output_dir audio_path), 1)

/-- The per-position invariant connecting the code's `(last_text, repeat_count)`
state with the spec-side run description: starting the code loop in state
`(lastText, rc)` behaves like the spec rule started as if `lastText` had
already occurred `rc + 1` times in a row. -/
theorem processLoop_ids_eq_runFlags (cc : String → String)
    (segs : List RawSegment) :
    ∀ (i : Nat) (lastText : String) (rc : Nat),
      (processLoop cc i lastText rc segs).2.map TranscriptEntry.id
        = trueIdxs i (runFlags (some lastText) (rc + 1) (convTexts cc segs)) := by
  induction segs with
  | nil => intro i lastText rc; simp [processLoop, convTexts, runFlags, trueIdxs]
  | cons seg rest ih =>
    intro i lastText rc
    by_cases h : cc (stripS seg.text) = lastText
    · by_cases hrc : rc = 0
      · subst hrc
        simp [processLoop, convTexts, runFlags, trueIdxs, newRepeatCount,
          MAX_REPEATS, h, ih]
      · have hgt : rc + 1 > 1 := by omega
        have hflag : ¬ (rc + 1 + 1 ≤ 2) := by omega
        simp [processLoop, convTexts, runFlags, trueIdxs, newRepeatCount,
          MAX_REPEATS, h, hgt, hflag, ih]
    · simp [processLoop, convTexts, runFlags, trueIdxs, newRepeatCount,
        MAX_REPEATS, h, ih]

/-- C1 counterexample: the claim's characterization (exactly the first two
segments of every maximal run of identical converted texts are kept) fails on
the stream of two segments whose converted text is the empty string — the code
initializes `last_text = ""`, so the second empty-text segment already counts
as a third occurrence and is dropped, while the claimed rule keeps both. -/
theorem claim_C1_counterexample :
    keptIds (fun s => s) [⟨"", 0, 1⟩, ⟨"", 1, 2⟩]
      ≠ trueIdxs 1 (runFlags none 0
          (convTexts (fun s => s) [⟨"", 0, 1⟩, ⟨"", 1, 2⟩])) := by
  decide

/-- C1 (amended): the suppression filter keeps, within every maximal run of
consecutive segments with identical converted text, exactly the first two and
drops the rest, resetting on any text change — except that the comparison
state is initialized to the empty string, so a stream-initial run whose
converted text is empty behaves as if one occurrence had already been seen and
keeps only its first segment.  Equality is tested on the converted text
(conversion is applied before the repeat check).  Formally, the kept ids are
those of the spec-side rule started with previous text `""` and run length 1. -/
theorem claim_C1_amended_characterization (cc : String → String)
    (segs : List RawSegment) :
    keptIds cc segs = trueIdxs 1 (runFlags (some "") 1 (convTexts cc segs)) :=
  processLoop_ids_eq_runFlags cc segs 1 "" 0

/-- C2: on a seven-segment stream whose converted texts are
`[A, A, A, B, B, B, B]` with `A`, `B` distinct and non-empty, the filter keeps
exactly the segments numbered 1, 2, 4, 5 — texts `[A, A, B, B]` — in both the
line-oriented text output and the structured segment list, and drops the
other three. -/
theorem claim_C2_example_stream (cc : String → String)
    (s1 s2 s3 s4 s5 s6 s7 : RawSegment) (A B : String)
    (hconv : convTexts cc [s1, s2, s3, s4, s5, s6, s7] = [A, A, A, B, B, B, B])
    (hA : A ≠ "") (_hB : B ≠ "") (hAB : A ≠ B) :
    (processSegments cc [s1, s2, s3, s4, s5, s6, s7]).1
      = [fmtLine s1.start s1.stop A, fmtLine s2.start s2.stop A,
         fmtLine s4.start s4.stop B, fmtLine s5.start s5.stop B]
    ∧ (processSegments cc [s1, s2, s3, s4, s5, s6, s7]).2
      = [⟨1, s1.start, s1.stop, A⟩, ⟨2, s2.start, s2.stop, A⟩,
         ⟨4, s4.start, s4.stop, B⟩, ⟨5, s5.start, s5.stop, B⟩] := by
  simp only [convTexts, List.map_cons, List.map_nil, List.cons.injEq,
    and_true] at hconv
  obtain ⟨h1, h2, h3, h4, h5, h6, h7⟩ := hconv
  constructor <;>
    simp [processSegments, processLoop, newRepeatCount, MAX_REPEATS,
      h1, h2, h3, h4, h5, h6, h7, hA, hAB, Ne.symm hAB]

/-- Witness for C2 at a fully concrete stream. -/
theorem claim_C2_witness :
    (processSegments (fun s => s)
        [⟨"A",0,1⟩,⟨"A",1,2⟩,⟨"A",2,3⟩,⟨"B",3,4⟩,⟨"B",4,5⟩,⟨"B",5,6⟩,⟨"B",6,7⟩]).1
      = [fmtLine 0 1 "A", fmtLine 1 2 "A", fmtLine 3 4 "B", fmtLine 4 5 "B"]
    ∧ (processSegments (fun s => s)
        [⟨"A",0,1⟩,⟨"A",1,2⟩,⟨"A",2,3⟩,⟨"B",3,4⟩,⟨"B",4,5⟩,⟨"B",5,6⟩,⟨"B",6,7⟩]).2
      = [⟨1,0,1,"A"⟩, ⟨2,1,2,"A"⟩, ⟨4,3,4,"B"⟩, ⟨5,4,5,"B"⟩] :=
  claim_C2_example_stream (fun s => s)
    ⟨"A",0,1⟩ ⟨"A",1,2⟩ ⟨"A",2,3⟩ ⟨"B",3,4⟩ ⟨"B",4,5⟩ ⟨"B",5,6⟩ ⟨"B",6,7⟩
    "A" "B" (by decide) (by decide) (by decide) (by decide)

theorem processLoop_sublist (cc : String → String) (segs : List RawSegment) :
    ∀ (i : Nat) (lastText : String) (rc : Nat),
      List.Sublist (processLoop cc i lastText rc segs).2 (entriesFrom cc i segs) := by
  induction segs with
  | nil => intro i lastText rc; simp [processLoop, entriesFrom]
  | cons seg rest ih =>
    intro i lastText rc
    by_cases h : newRepeatCount (cc (stripS seg.text)) lastText rc > MAX_REPEATS
    · simp only [processLoop, if_pos h, entriesFrom]
      exact List.Sublist.cons _
        (ih (i+1) (cc (stripS seg.text)) (newRepeatCount (cc (stripS seg.text)) lastText rc))
    · simp only [processLoop, if_neg h, entriesFrom]
      exact List.Sublist.cons₂ _
        (ih (i+1) (cc (stripS seg.text)) (newRepeatCount (cc (stripS seg.text)) lastText rc))

theorem mem_entriesFrom (cc : String → String) (segs : List RawSegment) :
    ∀ (i : Nat) (e : TranscriptEntry), e ∈ entriesFrom cc i segs →
      i ≤ e.id ∧ ∃ s, segs[e.id - i]? = some s ∧ e.start = s.start
        ∧ e.stop = s.stop ∧ e.text = cc (stripS s.text) := by
  induction segs with
  | nil => intro i e he; simp [entriesFrom] at he
  | cons seg rest ih =>
    intro i e he
    simp only [entriesFrom, List.mem_cons] at he
    rcases he with he | he
    · subst he
      exact ⟨le_refl i, seg, by simp, rfl, rfl, rfl⟩
    · obtain ⟨hle, s, hs, ha, hb, hc⟩ := ih (i+1) e he
      refine ⟨by omega, s, ?_, ha, hb, hc⟩
      have hidx : e.id - i = (e.id - (i+1)) + 1 := by omega
      rw [hidx]
      simpa using hs

theorem pairwise_entriesFrom (cc : String → String) (segs : List RawSegment) :
    ∀ i : Nat, (entriesFrom cc i segs).Pairwise (fun a b => a.id < b.id) := by
  induction segs with
  | nil => intro i; simp [entriesFrom]
  | cons seg rest ih =>
    intro i
    simp only [entriesFrom]
    refine List.Pairwise.cons ?_ (ih (i+1))
    intro e he
    have h1 := (mem_entriesFrom cc rest (i+1) e he).1
    show i < e.id
    omega

/-- C10: every kept entry's `sequence_id` equals its 1-based position in the
raw segment stream (dropped segments included in the count): the structured
output is an order-preserving subsequence of the full enumerated stream, its
ids are strictly increasing, and each kept entry carries the times and
converted text of the raw segment at position `id`. -/
theorem claim_C10_sequence_ids (cc : String → String) (segs : List RawSegment) :
    List.Sublist (processSegments cc segs).2 (entriesFrom cc 1 segs)
    ∧ ((processSegments cc segs).2).Pairwise (fun a b => a.id < b.id)
    ∧ ∀ e ∈ (processSegments cc segs).2,
        1 ≤ e.id ∧ ∃ s, segs[e.id - 1]? = some s ∧ e.start = s.start
          ∧ e.stop = s.stop ∧ e.text = cc (stripS s.text) := by
  refine ⟨processLoop_sublist cc segs 1 "" 0, ?_, ?_⟩
  · exact List.Pairwise.sublist (processLoop_sublist cc segs 1 "" 0)
      (pairwise_entriesFrom cc segs 1)
  · intro e he
    exact mem_entriesFrom cc segs 1 e
      ((processLoop_sublist cc segs 1 "" 0).subset he)

/-- Witness for C10: the kept entry of a one-segment stream. -/
theorem claim_C10_witness :
    1 ≤ (⟨1,0,1,"A"⟩ : TranscriptEntry).id
    ∧ ∃ s, ([⟨"A",0,1⟩] : List RawSegment)[(⟨1,0,1,"A"⟩ : TranscriptEntry).id - 1]? = some s
        ∧ (⟨1,0,1,"A"⟩ : TranscriptEntry).start = s.start
        ∧ (⟨1,0,1,"A"⟩ : TranscriptEntry).stop = s.stop
        ∧ (⟨1,0,1,"A"⟩ : TranscriptEntry).text = (fun s => s) (stripS s.text) :=
  (claim_C10_sequence_ids (fun s => s) [⟨"A",0,1⟩]).2.2 ⟨1,0,1,"A"⟩ (by decide)

theorem downloadLoop_eq_selectLoop (net : PyStr → NetOutcome) (saveDir : PyStr) :
    ∀ (eps : List Episode) (targets : Finset Nat) (fs : FSys (List Nat)),
      (downloadLoop net saveDir targets fs eps).2.1.map Prod.fst
          = (selectLoop targets eps).1
      ∧ (downloadLoop net saveDir targets fs eps).2.2 = (selectLoop targets eps).2 := by
  intro eps
  induction eps with
  | nil => intro targets fs; simp [downloadLoop, selectLoop]
  | cons ep rest ih =>
    intro targets fs
    cases h : ep.ep_number with
    | none => simp [downloadLoop, selectLoop, h, ih]
    | some n =>
      by_cases hn : n ∈ targets
      · simp [downloadLoop, selectLoop, h, hn, ih]
      · simp [downloadLoop, selectLoop, h, hn, ih]

theorem selectLoop_remaining : ∀ (eps : List Episode) (targets : Finset Nat),
    (selectLoop targets eps).2
      = targets.filter (fun m => ∀ ep ∈ eps, ep.ep_number ≠ some m) := by
  intro eps
  induction eps with
  | nil => intro targets; simp [selectLoop]
  | cons ep rest ih =>
    intro targets
    cases h : ep.ep_number with
    | none =>
      simp only [selectLoop, h]
      rw [ih]
      apply Finset.filter_congr
      intro m _
      simp [h]
    | some n =>
      by_cases hn : n ∈ targets
      · simp only [selectLoop, h, hn, if_true]
        rw [ih]
        ext m
        simp only [Finset.mem_filter, Finset.mem_erase, List.forall_mem_cons,
          h, ne_eq, Option.some.injEq]
        constructor
        · rintro ⟨⟨hmn, hm⟩, hr⟩
          exact ⟨hm, fun e => hmn e.symm, hr⟩
        · rintro ⟨hm, hnm, hr⟩
          exact ⟨⟨fun e => hnm e.symm, hm⟩, hr⟩
      · simp only [selectLoop, h, hn, if_false]
        rw [ih]
        ext m
        simp only [Finset.mem_filter, List.forall_mem_cons, h, ne_eq,
          Option.some.injEq]
        constructor
        · rintro ⟨hm, hr⟩
          refine ⟨hm, ?_, hr⟩
          rintro rfl
          exact hn hm
        · rintro ⟨hm, _, hr⟩
          exact ⟨hm, hr⟩

theorem selectLoop_sublist : ∀ (eps : List Episode) (targets : Finset Nat),
    List.Sublist (selectLoop targets eps).1 eps := by
  intro eps
  induction eps with
  | nil => intro targets; simp [selectLoop]
  | cons ep rest ih =>
    intro targets
    cases h : ep.ep_number with
    | none =>
      simp only [selectLoop, h]
      exact List.Sublist.cons _ (ih targets)
    | some n =>
      by_cases hn : n ∈ targets
      · simp only [selectLoop, h, hn, if_true]
        exact List.Sublist.cons₂ _ (ih (targets.erase n))
      · simp only [selectLoop, h, hn, if_false]
        exact List.Sublist.cons _ (ih targets)

theorem selectLoop_eq_selFirstAux :
    ∀ (eps : List Episode) (targets seen : Finset Nat),
      (selectLoop (targets \ seen) eps).1 = selFirstAux targets seen eps := by
  intro eps
  induction eps with
  | nil => intro targets seen; simp [selectLoop, selFirstAux]
  | cons ep rest ih =>
    intro targets seen
    cases h : ep.ep_number with
    | none => simp [selectLoop, selFirstAux, h, ih]
    | some n =>
      by_cases hn : n ∈ targets ∧ n ∉ seen
      · have hmem : n ∈ targets \ seen := Finset.mem_sdiff.mpr hn
        have herase : (targets \ seen).erase n = targets \ insert n seen := by
          ext m
          simp only [Finset.mem_erase, Finset.mem_sdiff, Finset.mem_insert,
            not_or]
          constructor
          · rintro ⟨hne, hm, hns⟩
            exact ⟨hm, hne, hns⟩
          · rintro ⟨hm, hne, hns⟩
            exact ⟨hne, hm, hns⟩
        simp [selectLoop, selFirstAux, h, hn, hmem, herase, ih]
      · have hmem : n ∉ targets \ seen := by
          rw [Finset.mem_sdiff]
          exact hn
        have heq : targets \ insert n seen = targets \ seen := by
          ext m
          simp only [Finset.mem_sdiff, Finset.mem_insert, not_or]
          constructor
          · rintro ⟨hm, _, hns⟩
            exact ⟨hm, hns⟩
          · rintro ⟨hm, hns⟩
            refine ⟨hm, ?_, hns⟩
            rintro rfl
            exact hn ⟨hm, hns⟩
        simp only [selectLoop, selFirstAux, h]
        rw [if_neg hmem, if_neg hn, ← ih targets (insert n seen), heq]

/-- C3: selection by numbers iterates the feed once in order — the attempted
downloads are exactly the `selectLoop` selection, which equals the
first-match-wins rule (`selFirstAux`: an episode is selected iff its number is
a target and no earlier episode bears the same number), is an order-preserving
subsequence of the feed, and the remaining set reported as not-found is
exactly the set of targets matching no episode.  In particular, targets
`{418, 414, 408}` against a feed numbered `[418, 420, 414]` download the 418
and 414 entries and report `{408}` as not found. -/
theorem claim_C3_selection_by_numbers (net : PyStr → NetOutcome)
    (saveDir : PyStr) (fs : FSys (List Nat)) (nums : List Nat)
    (eps : List Episode) :
    (download_specific_episodes net saveDir fs nums eps).2.1.map Prod.fst
        = (selectLoop nums.toFinset eps).1
    ∧ (selectLoop nums.toFinset eps).1 = selFirstAux nums.toFinset ∅ eps
    ∧ List.Sublist (selectLoop nums.toFinset eps).1 eps
    ∧ (download_specific_episodes net saveDir fs nums eps).2.2
        = nums.toFinset.filter (fun m => ∀ ep ∈ eps, ep.ep_number ≠ some m)
    ∧ (∀ e1 e2 e3 : Episode,
        e1.ep_number = some 418 → e2.ep_number = some 420 →
        e3.ep_number = some 414 →
          (download_specific_episodes net saveDir fs [418, 414, 408]
              [e1, e2, e3]).2.1.map Prod.fst = [e1, e3]
          ∧ (download_specific_episodes net saveDir fs [418, 414, 408]
              [e1, e2, e3]).2.2 = ({408} : Finset Nat)) := by
  refine ⟨(downloadLoop_eq_selectLoop net saveDir eps nums.toFinset fs).1,
    ?_, selectLoop_sublist eps nums.toFinset, ?_, ?_⟩
  · have h := selectLoop_eq_selFirstAux eps nums.toFinset ∅
    simpa using h
  · rw [show (download_specific_episodes net saveDir fs nums eps).2.2
        = (selectLoop nums.toFinset eps).2 from
        (downloadLoop_eq_selectLoop net saveDir eps nums.toFinset fs).2,
      selectLoop_remaining]
  · intro e1 e2 e3 h1 h2 h3
    have hA : (download_specific_episodes net saveDir fs [418, 414, 408]
        [e1, e2, e3]).2.1.map Prod.fst
        = (selectLoop ([418, 414, 408] : List Nat).toFinset [e1, e2, e3]).1 :=
      (downloadLoop_eq_selectLoop net saveDir [e1, e2, e3]
        ([418, 414, 408] : List Nat).toFinset fs).1
    have hR : (download_specific_episodes net saveDir fs [418, 414, 408]
        [e1, e2, e3]).2.2
        = (selectLoop ([418, 414, 408] : List Nat).toFinset [e1, e2, e3]).2 :=
      (downloadLoop_eq_selectLoop net saveDir [e1, e2, e3]
        ([418, 414, 408] : List Nat).toFinset fs).2
    have m1 : (418 : Nat) ∈ ([418, 414, 408] : List Nat).toFinset := by decide
    have m2 : (420 : Nat) ∉ (([418, 414, 408] : List Nat).toFinset).erase 418 := by
      decide
    have m3 : (414 : Nat) ∈ (([418, 414, 408] : List Nat).toFinset).erase 418 := by
      decide
    have m4 : ((([418, 414, 408] : List Nat).toFinset).erase 418).erase 414
        = ({408} : Finset Nat) := by decide
    constructor
    · rw [hA]
      simp [selectLoop, h1, h2, h3, m1, m2, m3]
    · rw [hR]
      simp [selectLoop, h1, h2, h3, m1, m2, m3, m4]

/-- Witness for C3's concrete selection example. -/
theorem claim_C3_witness :
    (download_specific_episodes (fun _ => NetOutcome.fail none) ['d'] []
        [418, 414, 408]
        [⟨['a'], some 418, [], ['u']⟩, ⟨['b'], some 420, [], ['v']⟩,
         ⟨['c'], some 414, [], ['w']⟩]).2.1.map Prod.fst
      = [⟨['a'], some 418, [], ['u']⟩, ⟨['c'], some 414, [], ['w']⟩]
    ∧ (download_specific_episodes (fun _ => NetOutcome.fail none) ['d'] []
        [418, 414, 408]
        [⟨['a'], some 418, [], ['u']⟩, ⟨['b'], some 420, [], ['v']⟩,
         ⟨['c'], some 414, [], ['w']⟩]).2.2 = ({408} : Finset Nat) :=
  (claim_C3_selection_by_numbers (fun _ => NetOutcome.fail none) ['d'] []
      [418, 414, 408]
      [⟨['a'], some 418, [], ['u']⟩, ⟨['b'], some 420, [], ['v']⟩,
       ⟨['c'], some 414, [], ['w']⟩]).2.2.2.2
    ⟨['a'], some 418, [], ['u']⟩ ⟨['b'], some 420, [], ['v']⟩
    ⟨['c'], some 414, [], ['w']⟩ rfl rfl rfl

/-- C9: a matched target number is consumed no matter how its download turns
out — the reported not-found set is the same for every network oracle and
starting filesystem (success, failure, or skip-because-exists), and equals the
targets matching no episode; hence a target whose matching episode's download
failed is never reported as not found. -/
theorem claim_C9_notfound_independent_of_outcomes (saveDir : PyStr)
    (nums : List Nat) (eps : List Episode) :
    (∀ (net : PyStr → NetOutcome) (fs : FSys (List Nat)),
        (download_specific_episodes net saveDir fs nums eps).2.2
          = nums.toFinset.filter (fun m => ∀ ep ∈ eps, ep.ep_number ≠ some m))
    ∧ (∀ (net : PyStr → NetOutcome) (fs : FSys (List Nat)) (n : Nat),
        n ∈ nums → (∃ ep ∈ eps, ep.ep_number = some n) →
          n ∉ (download_specific_episodes net saveDir fs nums eps).2.2) := by
  have key : ∀ (net : PyStr → NetOutcome) (fs : FSys (List Nat)),
      (download_specific_episodes net saveDir fs nums eps).2.2
        = nums.toFinset.filter (fun m => ∀ ep ∈ eps, ep.ep_number ≠ some m) := by
    intro net fs
    rw [show (download_specific_episodes net saveDir fs nums eps).2.2
        = (selectLoop nums.toFinset eps).2 from
        (downloadLoop_eq_selectLoop net saveDir eps nums.toFinset fs).2,
      selectLoop_remaining]
  refine ⟨key, ?_⟩
  rintro net fs n hn ⟨ep, hep, hnum⟩
  rw [key net fs]
  simp only [Finset.mem_filter, not_and]
  intro _ hall
  exact hall ep hep hnum

/-- Witness for C9: target 1 matches the only episode, so it is not reported
as not found even though its download fails. -/
theorem claim_C9_witness :
    (1 : Nat) ∉ (download_specific_episodes (fun _ => NetOutcome.fail none)
        ['d'] [] [1] [⟨['t'], some 1, [], ['u']⟩]).2.2 :=
  (claim_C9_notfound_independent_of_outcomes ['d'] [1]
      [⟨['t'], some 1, [], ['u']⟩]).2
    (fun _ => NetOutcome.fail none) [] 1 (by decide)
    ⟨⟨['t'], some 1, [], ['u']⟩, by decide, rfl⟩

theorem fsExists_fsWrite_self {α : Type} (p : PyStr) (a : α) (fs : FSys α) :
    fsExists p (fsWrite p a fs) = true := by
  simp [fsExists, fsWrite]

theorem fsExists_fsRemove_self {α : Type} (p : PyStr) :
    ∀ fs : FSys α, fsExists p (fsRemove p fs) = false := by
  intro fs
  induction fs with
  | nil => rfl
  | cons e rest ih =>
    by_cases h : e.1 = p
    · simpa [fsRemove, fsExists, List.filter_cons, h] using ih
    · simpa [fsRemove, fsExists, List.filter_cons, h] using ih

/-- C5: if the target file does not already exist and the transfer for `url`
fails (connection error, non-success status, or an exception partway through
the body), then `download_file` returns `None`, leaves no file at the target
path, and — since the selection of episodes to attempt never depends on the
network oracle or the filesystem — every queued episode is still attempted:
the attempted-episode list of `download_specific_episodes` always equals the
pure selection. -/
theorem claim_C5_failure_cleanup_and_continue (net : PyStr → NetOutcome)
    (saveDir : PyStr) (fs : FSys (List Nat)) (url filename : PyStr)
    (part : Option (List Nat))
    (hne : fsExists (targetPath saveDir filename) fs = false)
    (hfail : net url = NetOutcome.fail part) :
    (download_file net saveDir fs url filename).2.1 = none
    ∧ fsExists (targetPath saveDir filename)
        (download_file net saveDir fs url filename).1 = false
    ∧ ∀ (nums : List Nat) (eps : List Episode) (net₂ : PyStr → NetOutcome)
        (fs₂ : FSys (List Nat)),
          (download_specific_episodes net₂ saveDir fs₂ nums eps).2.1.map Prod.fst
            = (selectLoop nums.toFinset eps).1 := by
  refine ⟨?_, ?_, ?_⟩
  · cases part with
    | none => simp [download_file, hne, hfail]
    | some bytes => simp [download_file, hne, hfail, fsExists_fsWrite_self]
  · cases part with
    | none => simp [download_file, hne, hfail]
    | some bytes =>
      simp [download_file, hne, hfail, fsExists_fsWrite_self,
        fsExists_fsRemove_self]
  · intro nums eps net₂ fs₂
    exact (downloadLoop_eq_selectLoop net₂ saveDir eps nums.toFinset fs₂).1

/-- Witness for C5 at a concrete failing transfer that wrote partial bytes. -/
theorem claim_C5_witness :
    (download_file (fun _ => NetOutcome.fail (some [7])) ['d'] [] ['u']
        ['a', '.', 'm', 'p', '3']).2.1 = none
    ∧ fsExists (targetPath ['d'] ['a', '.', 'm', 'p', '3'])
        (download_file (fun _ => NetOutcome.fail (some [7])) ['d'] [] ['u']
          ['a', '.', 'm', 'p', '3']).1 = false :=
  ⟨(claim_C5_failure_cleanup_and_continue (fun _ => NetOutcome.fail (some [7]))
      ['d'] [] ['u'] ['a', '.', 'm', 'p', '3'] (some [7]) (by decide) rfl).1,
   (claim_C5_failure_cleanup_and_continue (fun _ => NetOutcome.fail (some [7]))
      ['d'] [] ['u'] ['a', '.', 'm', 'p', '3'] (some [7]) (by decide) rfl).2.1⟩

/-- C6: if the resolved target path already exists, `download_file` returns
the existing path, performs zero network transfers, and leaves the whole
filesystem (in particular the existing file) unchanged. -/
theorem claim_C6_skip_existing_file (net : PyStr → NetOutcome)
    (saveDir : PyStr) (fs : FSys (List Nat)) (url filename : PyStr)
    (h : fsExists (targetPath saveDir filename) fs = true) :
    download_file net saveDir fs url filename
      = (fs, some (targetPath saveDir filename), 0) := by
  simp [download_file, h]

/-- Witness for C6 at a concrete filesystem already holding the target. -/
theorem claim_C6_witness :
    download_file (fun _ => NetOutcome.fail none) ['d']
        [(targetPath ['d'] ['a', '.', 'm', 'p', '3'], [5])] ['u']
        ['a', '.', 'm', 'p', '3']
      = ([(targetPath ['d'] ['a', '.', 'm', 'p', '3'], [5])],
         some (targetPath ['d'] ['a', '.', 'm', 'p', '3']), 0) :=
  claim_C6_skip_existing_file (fun _ => NetOutcome.fail none) ['d']
    [(targetPath ['d'] ['a', '.', 'm', 'p', '3'], [5])] ['u']
    ['a', '.', 'm', 'p', '3'] (by decide)

theorem mem_takeWhile_pred (p : Char → Bool) :
    ∀ (l : List Char) (c : Char), c ∈ l.takeWhile p → p c = true := by
  intro l
  induction l with
  | nil => intro c h; simp at h
  | cons a t ih =>
    intro c h
    by_cases hp : p a
    · rw [List.takeWhile_cons_of_pos hp] at h
      rcases List.mem_cons.mp h with rfl | h
      · exact hp
      · exact ih c h
    · rw [List.takeWhile_cons_of_neg hp] at h
      simp at h

theorem head_dropWhile_false (p : Char → Bool) :
    ∀ (l : List Char) (c : Char), (l.dropWhile p).head? = some c → p c = false := by
  intro l
  induction l with
  | nil => intro c h; simp at h
  | cons a t ih =>
    intro c h
    by_cases hp : p a
    · rw [List.dropWhile_cons_of_pos hp] at h
      exact ih c h
    · rw [List.dropWhile_cons_of_neg hp] at h
      simp only [List.head?_cons, Option.some.injEq] at h
      subst h
      exact Bool.eq_false_iff.mpr hp

theorem dropWhile_append_all (p : Char → Bool) :
    ∀ (l r : List Char), (∀ c ∈ l, p c = true) →
      (l ++ r).dropWhile p = r.dropWhile p := by
  intro l
  induction l with
  | nil => intro r _; rfl
  | cons a t ih =>
    intro r h
    have ha : p a = true := h a (List.mem_cons_self a t)
    rw [List.cons_append, List.dropWhile_cons_of_pos ha]
    exact ih r (fun c hc => h c (List.mem_cons_of_mem a hc))

theorem takeWhile_append_all (p : Char → Bool) :
    ∀ (l r : List Char), (∀ c ∈ l, p c = true) →
      (l ++ r).takeWhile p = l ++ r.takeWhile p := by
  intro l
  induction l with
  | nil => intro r _; rfl
  | cons a t ih =>
    intro r h
    have ha : p a = true := h a (List.mem_cons_self a t)
    rw [List.cons_append, List.takeWhile_cons_of_pos ha, ih r
      (fun c hc => h c (List.mem_cons_of_mem a hc)), List.cons_append]

theorem takeWhile_head_false (p : Char → Bool) (r : List Char)
    (h : ∀ c, r.head? = some c → p c = false) : r.takeWhile p = [] := by
  cases r with
  | nil => rfl
  | cons a t =>
    have ha : p a = false := h a rfl
    rw [List.takeWhile_cons_of_neg (by simp [ha])]

theorem dropWhile_head_false (p : Char → Bool) (r : List Char)
    (h : ∀ c, r.head? = some c → p c = false) : r.dropWhile p = r := by
  cases r with
  | nil => rfl
  | cons a t =>
    have ha : p a = false := h a rfl
    rw [List.dropWhile_cons_of_neg (by simp [ha])]

theorem digit_not_space (c : Char) (h : c.isDigit = true) :
    isSpaceChar c = false := by
  rw [Bool.eq_false_iff]
  intro hs
  simp only [isSpaceChar, decide_eq_true_eq] at hs
  rcases hs with rfl | rfl | rfl | rfl | rfl | rfl <;> simp [Char.isDigit] at h

theorem digit_not_dot (c : Char) (h : c.isDigit = true) : ¬ c = '.' := by
  rintro rfl
  simp [Char.isDigit] at h

theorem space_not_dot (c : Char) (h : isSpaceChar c = true) : ¬ c = '.' := by
  rintro rfl
  simp [isSpaceChar] at h

theorem dropDot_decomp (r : List Char) :
    (r.head? = some '.' ∧ r = '.' :: dropDot r)
    ∨ (r.head? ≠ some '.' ∧ dropDot r = r) := by
  cases r with
  | nil => right; exact ⟨by simp, rfl⟩
  | cons c t =>
    by_cases h : c = '.'
    · subst h
      left
      exact ⟨rfl, by simp [dropDot]⟩
    · right
      refine ⟨?_, by simp [dropDot, h]⟩
      simp [h]

theorem matchEPAt_sound (l : List Char) (n : Nat)
    (h : matchEPAt l = some n) : HeadMatch l n := by
  match l with
  | [] => simp [matchEPAt] at h
  | [c] => simp [matchEPAt] at h
  | c1 :: c2 :: rest =>
    by_cases hc : (c1 = 'E' ∨ c1 = 'e') ∧ (c2 = 'P' ∨ c2 = 'p')
    · rw [matchEPAt, if_pos hc] at h
      by_cases hd : digitsAfter (dropDot rest) = []
      · rw [if_pos hd] at h
        simp at h
      · rw [if_neg hd] at h
        have hn : n = digitsToNat (digitsAfter (dropDot rest)) :=
          (Option.some.injEq _ _ ▸ h).symm
        rcases dropDot_decomp rest with ⟨_, hr⟩ | ⟨_, hr⟩
        · refine ⟨c1, c2, ['.'],
            (dropDot rest).takeWhile isSpaceChar,
            ((dropDot rest).dropWhile isSpaceChar).takeWhile Char.isDigit,
            ((dropDot rest).dropWhile isSpaceChar).dropWhile Char.isDigit,
            ?_, hc.1, hc.2, Or.inr rfl,
            fun c hc' => mem_takeWhile_pred isSpaceChar _ c hc',
            hd, fun c hc' => mem_takeWhile_pred Char.isDigit _ c hc',
            fun c hc' => head_dropWhile_false Char.isDigit _ c hc', hn⟩
          rw [List.takeWhile_append_dropWhile, List.takeWhile_append_dropWhile]
          simpa using hr
        · refine ⟨c1, c2, [],
            (dropDot rest).takeWhile isSpaceChar,
            ((dropDot rest).dropWhile isSpaceChar).takeWhile Char.isDigit,
            ((dropDot rest).dropWhile isSpaceChar).dropWhile Char.isDigit,
            ?_, hc.1, hc.2, Or.inl rfl,
            fun c hc' => mem_takeWhile_pred isSpaceChar _ c hc',
            hd, fun c hc' => mem_takeWhile_pred Char.isDigit _ c hc',
            fun c hc' => head_dropWhile_false Char.isDigit _ c hc', hn⟩
          rw [List.takeWhile_append_dropWhile, List.takeWhile_append_dropWhile]
          simpa using hr.symm
    · rw [matchEPAt, if_neg hc] at h
      simp at h

theorem EPDecomp_cons (c : Char) (t : PyStr) (n : Nat) :
    EPDecomp t n → EPDecomp (c :: t) n := by
  rintro ⟨pre, suf, heq, hm⟩
  exact ⟨c :: pre, suf, by rw [heq, List.cons_append], hm⟩

theorem searchEP_sound : ∀ (title : PyStr) (n : Nat),
    searchEP title = some n → EPDecomp title n := by
  intro title
  induction title with
  | nil => intro n h; simp [searchEP] at h
  | cons c rest ih =>
    intro n h
    cases hm : matchEPAt (c :: rest) with
    | some m =>
      have hnm : m = n := by
        rw [searchEP, hm] at h
        exact Option.some.injEq _ _ ▸ h
      subst hnm
      exact ⟨[], c :: rest, rfl, matchEPAt_sound (c :: rest) m hm⟩
    | none =>
      rw [searchEP, hm] at h
      exact EPDecomp_cons c rest n (ih n h)

theorem matchEPAt_of_HeadMatch (l : List Char) (n : Nat)
    (h : HeadMatch l n) : matchEPAt l = some n := by
  obtain ⟨c1, c2, dot, sp, ds, post, heq, hc1, hc2, hdot, hsp, hdsne, hds,
    hpost, hn⟩ := h
  have hdrop : dropDot (dot ++ (sp ++ (ds ++ post))) = sp ++ (ds ++ post) := by
    rcases hdot with rfl | rfl
    · rw [List.nil_append]
      cases hsp0 : sp with
      | nil =>
        cases hds0 : ds with
        | nil => exact absurd hds0 hdsne
        | cons d ds' =>
          have hdig : d.isDigit = true := hds d (by simp [hds0])
          have hne : ¬ d = '.' := digit_not_dot d hdig
          simp [hsp0, hds0, dropDot, hne]
      | cons s sp' =>
        have hs : isSpaceChar s = true := hsp s (by simp [hsp0])
        have hne : ¬ s = '.' := space_not_dot s hs
        simp [hsp0, dropDot, hne]
    · simp [dropDot]
  have hdigits : digitsAfter (sp ++ (ds ++ post)) = ds := by
    unfold digitsAfter
    have h1 : (sp ++ (ds ++ post)).dropWhile isSpaceChar = ds ++ post := by
      rw [dropWhile_append_all isSpaceChar sp (ds ++ post) hsp]
      apply dropWhile_head_false
      intro c hc
      cases hds0 : ds with
      | nil => exact absurd hds0 hdsne
      | cons d ds' =>
        rw [hds0, List.cons_append, List.head?_cons] at hc
        have hcd : c = d := (Option.some.injEq _ _ ▸ hc).symm
        subst hcd
        exact digit_not_space c (hds c (by simp [hds0]))
    rw [h1, takeWhile_append_all Char.isDigit ds post hds,
      takeWhile_head_false Char.isDigit post hpost, List.append_nil]
  subst heq
  rw [matchEPAt, if_pos ⟨hc1, hc2⟩, hdrop, hdigits, if_neg hdsne, hn]

theorem searchEP_total : ∀ (pre suf : PyStr) (n : Nat),
    matchEPAt suf = some n → ∃ m, searchEP (pre ++ suf) = some m := by
  intro pre
  induction pre with
  | nil =>
    intro suf n h
    cases suf with
    | nil => simp [matchEPAt] at h
    | cons c rest => exact ⟨n, by rw [List.nil_append, searchEP, h]⟩
  | cons c pre' ih =>
    intro suf n h
    rw [List.cons_append]
    cases hm : matchEPAt (c :: (pre' ++ suf)) with
    | some m => exact ⟨m, by rw [searchEP, hm]⟩
    | none =>
      obtain ⟨m, hms⟩ := ih suf n h
      exact ⟨m, by rw [searchEP, hm, hms]⟩

/-- C4: the extracted episode number is sound — whenever extraction yields
`n`, the title decomposes around a case-insensitive `EP` marker with optional
period and/or whitespace separator followed by a maximal digit run of integer
value `n` — and extraction yields nothing exactly when no such pattern occurs
anywhere in the title. -/
theorem claim_C4_episode_number_pattern (title : PyStr) :
    (∀ n, extract_ep_number title = some n → EPDecomp title n)
    ∧ (extract_ep_number title = none ↔ ∀ n, ¬ EPDecomp title n) := by
  refine ⟨fun n h => searchEP_sound title n h, ?_, ?_⟩
  · intro hnone n hdec
    obtain ⟨pre, suf, heq, hm⟩ := hdec
    obtain ⟨m, hms⟩ := searchEP_total pre suf n (matchEPAt_of_HeadMatch suf n hm)
    have hnone' : searchEP (pre ++ suf) = none := heq ▸ hnone
    rw [hnone'] at hms
    simp at hms
  · intro hall
    cases hopt : extract_ep_number title with
    | none => rfl
    | some n => exact absurd (searchEP_sound title n hopt) (hall n)

/-- Witness for C4 on the title `EP418`. -/
theorem claim_C4_witness :
    EPDecomp ['E', 'P', '4', '1', '8'] 418 :=
  (claim_C4_episode_number_pattern ['E', 'P', '4', '1', '8']).1 418 (by decide)

/-- C7: when the source audio exists and both output artifacts already exist
at their deterministic paths, `transcribe_file` performs zero ASR invocations,
leaves the filesystem untouched, and returns the existing text path. -/
theorem claim_C7_skip_transcribed (asr : PyStr → List RawSegment)
    (cc : String → String) (nowStr : String) (fs : FSys TFile)
    (audio_path output_dir : PyStr)
    (haud : fsExists audio_path fs = true)
    (htxt : fsExists (txtPath output_dir audio_path) fs = true)
    (hjson : fsExists (jsonPath output_dir audio_path) fs = true) :
    transcribe_file asr cc nowStr fs audio_path output_dir
      = (fs, some (txtPath output_dir audio_path), 0) := by
  simp [transcribe_file, haud, htxt, hjson]

/-- Witness for C7 on a concrete filesystem holding all three files. -/
theorem claim_C7_witness :
    transcribe_file (fun _ => []) (fun s => s) ""
        [("d/a.mp3".data, TFile.audioF),
         (txtPath "t".data "d/a.mp3".data, TFile.txtF "x"),
         (jsonPath "t".data "d/a.mp3".data, TFile.jsonF [])]
        "d/a.mp3".data "t".data
      = ([("d/a.mp3".data, TFile.audioF),
          (txtPath "t".data "d/a.mp3".data, TFile.txtF "x"),
          (jsonPath "t".data "d/a.mp3".data, TFile.jsonF [])],
         some (txtPath "t".data "d/a.mp3".data), 0) :=
  claim_C7_skip_transcribed (fun _ => []) (fun s => s) ""
    [("d/a.mp3".data, TFile.audioF),
     (txtPath "t".data "d/a.mp3".data, TFile.txtF "x"),
     (jsonPath "t".data "d/a.mp3".data, TFile.jsonF [])]
    "d/a.mp3".data "t".data (by decide) (by decide) (by decide)

theorem mem_dropWhile_sub (p : Char → Bool) :
    ∀ (l : List Char) (c : Char), c ∈ l.dropWhile p → c ∈ l := by
  intro l
  induction l with
  | nil => intro c h; simp at h
  | cons a t ih =>
    intro c h
    by_cases hp : p a
    · rw [List.dropWhile_cons_of_pos hp] at h
      exact List.mem_cons_of_mem a (ih c h)
    · rwa [List.dropWhile_cons_of_neg hp] at h

theorem mem_pyStrip_sub (l : List Char) (c : Char) (h : c ∈ pyStrip l) :
    c ∈ l := by
  unfold pyStrip at h
  rw [List.mem_reverse] at h
  have h1 := mem_dropWhile_sub isSpaceChar _ c h
  rw [List.mem_reverse] at h1
  exact mem_dropWhile_sub isSpaceChar _ c h1

theorem dropWhile_length_le (p : Char → Bool) :
    ∀ l : List Char, (l.dropWhile p).length ≤ l.length := by
  intro l
  induction l with
  | nil => simp
  | cons a t ih =>
    by_cases hp : p a
    · rw [List.dropWhile_cons_of_pos hp]
      exact Nat.le_succ_of_le ih
    · rw [List.dropWhile_cons_of_neg hp]

theorem pyStrip_length_le (l : List Char) : (pyStrip l).length ≤ l.length := by
  unfold pyStrip
  rw [List.length_reverse]
  calc ((l.dropWhile isSpaceChar).reverse.dropWhile isSpaceChar).length
      ≤ (l.dropWhile isSpaceChar).reverse.length :=
        dropWhile_length_le isSpaceChar _
    _ = (l.dropWhile isSpaceChar).length := List.length_reverse _
    _ ≤ l.length := dropWhile_length_le isSpaceChar l

/-- C8: filename resolution (`title[:40] + ext`, then the sanitization inside
`download_file`) is a pure deterministic function of title and url; no
character of the stripped illegal set ever appears in the result; the result's
length is at most the 40-character title cap plus the extension length; and
the path used by the download pipeline is exactly the save directory joined
with this resolved name. -/
theorem claim_C8_filename_resolver (title url : PyStr) :
    (∀ title' url', title = title' → url = url' →
        resolveFilename title url = resolveFilename title' url')
    ∧ (∀ c ∈ resolveFilename title url, c ∉ illegalChars)
    ∧ (resolveFilename title url).length ≤ 40 + (extFor url).length
    ∧ (∀ saveDir : PyStr, targetPath saveDir (title.take 40 ++ extFor url)
        = saveDir ++ '/' :: resolveFilename title url) := by
  refine ⟨?_, ?_, ?_, fun saveDir => rfl⟩
  · rintro title' url' rfl rfl
    rfl
  · intro c hc
    have h1 := mem_pyStrip_sub _ c hc
    rw [List.mem_filter] at h1
    exact of_decide_eq_true h1.2
  · calc (resolveFilename title url).length
        ≤ (title.take 40 ++ extFor url).length := by
          refine le_trans (pyStrip_length_le _) ?_
          exact List.length_filter_le _ _
      _ = (title.take 40).length + (extFor url).length := List.length_append _ _
      _ ≤ 40 + (extFor url).length := by
          have := List.length_take 40 title
          omega

/-- Witness for C8 at a concrete title and url. -/
theorem claim_C8_witness :
    ('a' ∉ illegalChars)
    ∧ (resolveFilename "a*b".data "u.m4a".data).length
        ≤ 40 + (extFor "u.m4a".data).length :=
  ⟨(claim_C8_filename_resolver "a*b".data "u.m4a".data).2.1 'a' (by decide),
   (claim_C8_filename_resolver "a*b".data "u.m4a".data).2.2.1⟩

